import Mathlib

/-!
# go-task-runner: a shallow embedding of `main.go`

The service keeps one table `tasks`, an HTTP handler pair on `/tasks`
(`HandleCreateTask`, `HandleListTasks`) and one background goroutine
(`ProcessTasks`) fed through `TaskChannel`.

Modelling conventions.

* `time.Time` values are abstract instants (`Time`).
* The SQLite table is a list of rows in storage order.  Everything the
  database decides on its own (whether a statement fails, which id an
  INSERT generates, where a cursor stops) is an explicit argument of the
  function that issues the statement.
* `database/sql` hands back a nil `Result` together with a non-nil error;
  a nil interface value is `none`, and a method call on it is a Go panic.
* A Go slice that was never appended to is nil; `encoding/json` writes a
  nil slice as `null` and a non-nil one as an array.
* Go's `int` is taken at 64 bits (`intBits`), the width on the targets the
  cgo SQLite driver is normally built for; `int(insertedId)` is `toInt`.
* The schema of table `tasks` is not part of main.go.  What the store guarantees
  about the id it generates is taken from the spec and stated once, in
  `StoreAssigns`; it is a premise of the create step and of nothing else.
* `time.Sleep` and log output have no effect on the modelled state.
-/

namespace TaskRunner

/-! ## Data model -/

/-- An instant as produced by `time.Now()`. -/
abbrev Time := Nat

/-- Struct `Task` of main.go, lines 13-19.  A row of table `tasks` has the same columns. -/
structure Task where
  ID : Int
  Title : String
  Description : String
  Status : String
  CreatedAt : Time
deriving DecidableEq, Repr

/-- Table `tasks` in storage order. -/
abbrev Table := List Task

/-- Zero value of `Task`, what `var task Task` declares. -/
def Task.zero : Task :=
  { ID := 0, Title := "", Description := "", Status := "", CreatedAt := 0 }

/-- Width of Go's `int`. -/
def intBits : Nat := 64

/-- Range of an `int64`, the type of `insertedId`. -/
def InInt64 (x : Int) : Prop := -(2 : Int) ^ 63 ≤ x ∧ x < (2 : Int) ^ 63

instance (x : Int) : Decidable (InInt64 x) := by
  unfold InInt64; infer_instance

/-- Conversion `int(x)` of an `int64`: two's-complement wrap to `intBits` bits. -/
def toInt (x : Int) : Int :=
  (x + (2 : Int) ^ (intBits - 1)) % (2 : Int) ^ intBits - (2 : Int) ^ (intBits - 1)

/-- Result of running Go code that may panic. -/
inductive Outcome (α : Type) where
  | ret (a : α)
  | panic (msg : String)
deriving DecidableEq, Repr

/-- Non-nil `sql.Result` of an INSERT. -/
structure SqlResult where
  lastInsertId : Int
deriving DecidableEq, Repr

/-- Message of the runtime error raised by a method call on a nil interface. -/
def nilDeref : String := "runtime error: invalid memory address or nil pointer dereference"

/-! ## Store operations -/

/-- `DB.Exec` on the INSERT of line 27.  `gen` is what the database does with the
statement: it fails with an error, or it stores the row under the id it generated.
The client-side `task.ID` is not among the statement's arguments. -/
def execInsert (rows : Table) (gen : Except String Int)
    (title description status : String) (createdAt : Time) :
    Table × Option SqlResult × Option String :=
  match gen with
  | .error e => (rows, none, some e)
  | .ok id =>
    (rows ++ [{ ID := id, Title := title, Description := description,
                Status := status, CreatedAt := createdAt }],
     some { lastInsertId := id }, none)

/-- `TaskService.AddTask`, lines 26-31.  The error of `LastInsertId` is dropped
(`insertedId, _ :=`); the call itself is made on whatever `Exec` returned. -/
def AddTask (rows : Table) (gen : Except String Int) (task : Task) :
    Table × Outcome (Int × Option String) :=
  match execInsert rows gen task.Title task.Description task.Status task.CreatedAt with
  | (rows1, result, err) =>
    match result with
    | none => (rows1, .panic nilDeref)
    | some r => (rows1, .ret (r.lastInsertId, err))

/-- `DB.Exec` on the UPDATE of line 34: `fault` is the error the database raises, if any.
A failed statement leaves the table as it was; a statement that matches no row succeeds. -/
def execUpdate (rows : Table) (fault : Option String) (status : String) (id : Int) :
    Table × Option String :=
  match fault with
  | some e => (rows, some e)
  | none => (rows.map (fun r => if r.ID = id then { r with Status := status } else r), none)

/-- `TaskService.UpdateTaskStatus`, lines 33-37. -/
def UpdateTaskStatus (rows : Table) (fault : Option String) (task : Task) :
    Table × Option String :=
  execUpdate rows fault task.Status task.ID

/-- What can go wrong while `SELECT * FROM tasks` is read: the query itself, the
cursor after it has delivered `iter.1` rows, or `Scan` on the row with index `scan.1`. -/
structure ReadFaults where
  query : Option String
  iter : Option (Nat × String)
  scan : Option (Nat × String)
deriving DecidableEq, Repr

/-- No fault at all. -/
def ReadFaults.clean : ReadFaults := { query := none, iter := none, scan := none }

/-- Value `*sql.Rows`: the rows `Next` will deliver, each with the outcome of `Scan`
on it, and the error `rows.Err()` would report once `Next` has returned false. -/
structure SqlRows where
  items : List (Except String Task)
  err : Option String

/-- Rows as `Scan` sees them, `k` being the index of the first one. -/
def scanOutcomes (scan : Option (Nat × String)) : Nat → List Task → List (Except String Task)
  | _, [] => []
  | k, r :: rest =>
    (match scan with
     | some (i, e) => if i = k then Except.error e else Except.ok r
     | none => Except.ok r) :: scanOutcomes scan (k + 1) rest

/-- `DB.Query` on the SELECT of line 40. -/
def dbQuery (rows : Table) (f : ReadFaults) : Except String SqlRows :=
  match f.query with
  | some e => .error e
  | none =>
    match f.iter with
    | some (k, e) => .ok { items := scanOutcomes f.scan 0 (rows.take k), err := some e }
    | none => .ok { items := scanOutcomes f.scan 0 rows, err := none }

/-- A Go `[]Task`: `none` is the nil slice. -/
abbrev GoSlice := Option (List Task)

/-- Builtin `append(tasks, task)`; the result is never nil. -/
def goAppend (s : GoSlice) (t : Task) : GoSlice :=
  some (s.getD [] ++ [t])

/-- Loop of lines 47-60.  It ends when `rows.Next()` returns false, which is all the
loop learns about the cursor: `rows.Err()` is not consulted. -/
def scanLoop : List (Except String Task) → GoSlice → GoSlice × Option String
  | [], tasks => (tasks, none)
  | .error e :: _, _ => (none, some e)
  | .ok t :: rest, tasks => scanLoop rest (goAppend tasks t)

/-- `TaskService.ListTasks`, lines 39-62. -/
def ListTasks (rows : Table) (f : ReadFaults) : GoSlice × Option String :=
  match dbQuery rows f with
  | .error e => (none, some e)
  | .ok cursor => scanLoop cursor.items none

/-- One pass through the body of the loop in `ProcessTasks`, lines 66-70, for a task
received from the channel.  The error of `UpdateTaskStatus` is discarded. -/
def processOne (rows : Table) (fault : Option String) (task : Task) : Table :=
  let task1 := { task with Status := "COMPLETED" }
  (UpdateTaskStatus rows fault task1).1

/-- `TaskService.ProcessTasks`, lines 64-72, on the sequence of tasks it receives; each
comes with the fault, if any, that its UPDATE meets. -/
def ProcessTasks (rows : Table) (received : List (Task × Option String)) : Table :=
  received.foldl (fun db p => processOne db p.2 p.1) rows

/-! ## HTTP handlers -/

/-- A scalar inside an encoded task object; `time` stands for the RFC 3339 text of the instant. -/
inductive JValue where
  | num (n : Int)
  | str (s : String)
  | time (t : Time)
deriving DecidableEq, Repr

/-- A JSON object as the ordered list of its members. -/
abbrev JObject := List (String × JValue)

/-- Body of an HTTP response. -/
inductive Body where
  | empty
  | text (msg : String)
  | jsonNull
  | jsonArray (objs : List JObject)
deriving DecidableEq, Repr

/-- Status line and body the handler wrote. -/
structure Response where
  status : Nat
  body : Body
deriving DecidableEq, Repr

/-- How a handler invocation ends: it wrote a response, or it panicked before writing one
(net/http recovers the panic and drops the connection). -/
inductive Served where
  | responded (r : Response)
  | panicked (msg : String)
deriving DecidableEq, Repr

/-- `encoding/json` on a `Task`, member names from the struct tags of lines 14-18. -/
def encodeTask (t : Task) : JObject :=
  [("id", .num t.ID), ("title", .str t.Title), ("description", .str t.Description),
   ("status", .str t.Status), ("created_at", .time t.CreatedAt)]

/-- `json.NewEncoder(writer).Encode(tasks)`, line 100. -/
def encodeTasks : GoSlice → Body
  | none => .jsonNull
  | some ts => .jsonArray (ts.map encodeTask)

/-- `http.Error(writer, msg, code)`. -/
def httpError (msg : String) (code : Nat) : Response :=
  { status := code, body := .text msg }

/-- Where `HandleCreateTask` stands once lines 75-88 have run. -/
inductive CreatePhase where
  | done (s : Served)
  | sending (task : Task)
deriving DecidableEq, Repr

/-- Lines 75-88 of `HandleCreateTask`.  `decoded` is the outcome of
`json.NewDecoder(request.Body).Decode(&task)`, `now` the value of `time.Now()`. -/
def createUntilSend (rows : Table) (decoded : Except String Task) (now : Time)
    (gen : Except String Int) : Table × CreatePhase :=
  match decoded with
  | .error e => (rows, .done (.responded (httpError e 400)))
  | .ok payload =>
    let task1 := { payload with Status := "PENDING" }
    let task2 := { task1 with CreatedAt := now }
    match AddTask rows gen task2 with
    | (rows1, .panic msg) => (rows1, .done (.panicked msg))
    | (rows1, .ret (insertedId, err)) =>
      match err with
      | some _ =>
        (rows1, .done (.responded (httpError "Error addding task, try again later" 500)))
      | none => (rows1, .sending { task2 with ID := toInt insertedId })

/-- Effects of one `HandleCreateTask` call. -/
structure CreateResult where
  db : Table
  sent : Option Task
  served : Served
deriving DecidableEq, Repr

/-- `TaskService.HandleCreateTask`, lines 74-91, run to its end: after the send of line 89
has been taken by the receiver the handler writes status 201 and no body. -/
def HandleCreateTask (rows : Table) (decoded : Except String Task) (now : Time)
    (gen : Except String Int) : CreateResult :=
  match createUntilSend rows decoded now gen with
  | (rows1, .done s) => { db := rows1, sent := none, served := s }
  | (rows1, .sending task) =>
    { db := rows1, sent := some task, served := .responded { status := 201, body := .empty } }

/-- `TaskService.HandleListTasks`, lines 93-101.  The first write of the body sends status 200. -/
def HandleListTasks (rows : Table) (f : ReadFaults) : Response :=
  match ListTasks rows f with
  | (_, some _) => httpError "Error listing tasks" 500
  | (tasks, none) => { status := 200, body := encodeTasks tasks }

/-! ## The running system

`main` (lines 103-131) creates the channel with `make(chan Task)`, that is with no buffer,
starts `ProcessTasks` once and serves every request in a goroutine of its own.  A send on
an unbuffered channel completes only together with a receive. -/

/-- Global state: the table, the goroutines parked on the channel, and a history of
what has happened so far (`acked`, `dequeued`, `offered` and `updated` only record). -/
structure Sys where
  /-- Table `tasks`. -/
  db : Table
  /-- Create handlers suspended in the send of line 89, each with the task it offers. -/
  blocked : List Task
  /-- State of `ProcessTasks`: `none` while it waits in the receive of line 65, `some t` from the
  moment it has received `t` until its UPDATE has been issued (lines 66-69, sleep included). -/
  worker : Option Task
  /-- Create handlers whose send has completed and which have not yet executed line 90. -/
  acking : List Task
  /-- Ids of the tasks whose creation has been answered with 201. -/
  acked : List Int
  /-- Ids of the tasks the worker has received. -/
  dequeued : List Int
  /-- Ids of the tasks handlers have put up for sending, oldest first. -/
  offered : List Int
  /-- Ids the worker has called `UpdateTaskStatus` for, oldest first. -/
  updated : List Int

/-- State at start-up over an empty table. -/
def Sys.init : Sys :=
  { db := [], blocked := [], worker := none, acking := [], acked := [], dequeued := [],
    offered := [], updated := [] }

/-- Kind of an atomic step. -/
inductive Label where
  | create
  | handoff
  | ack
  | work
  | list
deriving DecidableEq, Repr

/-- Modelled from the spec: the schema of table `tasks` and the way the store generates
the id of a new row.  Neither is in main.go, which issues no CREATE TABLE and declares no
key.  The spec describes the persisted state as a table of tasks "keyed by identifier"
whose identifier is "assigned by store on creation, unique", "assigned exactly once, by
the store, and is never reused".  Accordingly an INSERT that succeeds returns an `int64`
(the type of `LastInsertId`) that is not the id of a row already stored; an INSERT that
fails is under no constraint. -/
def StoreAssigns (rows : Table) : Except String Int → Prop
  | .error _ => True
  | .ok id => InInt64 id ∧ id ∉ rows.map Task.ID

/-- State after a handler has run lines 75-88: either it is finished, or it is parked on the send. -/
def afterCreate (s : Sys) : Table × CreatePhase → Sys
  | (db1, .done _) => { s with db := db1 }
  | (db1, .sending t) =>
    { s with db := db1, blocked := s.blocked ++ [t], offered := s.offered ++ [t.ID] }

/-- Atomic steps of the system. -/
inductive Step : Sys → Label → Sys → Prop where
  /-- A create handler runs up to its send (or to its early return); `hgen` is the
  store's contract on the id of its INSERT. -/
  | create (s : Sys) (decoded : Except String Task) (now : Time) (gen : Except String Int)
      (hgen : StoreAssigns s.db gen) :
      Step s .create (afterCreate s (createUntilSend s.db decoded now gen))
  /-- The send of a parked handler meets the receive of the idle worker. -/
  | handoff (s : Sys) (pre post : List Task) (t : Task)
      (hb : s.blocked = pre ++ t :: post) (hw : s.worker = none) :
      Step s .handoff
        { s with blocked := pre ++ post, worker := some t, acking := s.acking ++ [t],
                 dequeued := s.dequeued ++ [t.ID] }
  /-- A handler whose send has completed writes status 201 (line 90). -/
  | ack (s : Sys) (pre post : List Task) (t : Task) (ha : s.acking = pre ++ t :: post) :
      Step s .ack { s with acking := pre ++ post, acked := s.acked ++ [t.ID] }
  /-- The worker finishes the task it holds (lines 66-70) and returns to the receive. -/
  | work (s : Sys) (t : Task) (fault : Option String) (hw : s.worker = some t) :
      Step s .work
        { s with db := processOne s.db fault t, worker := none, updated := s.updated ++ [t.ID] }
  /-- A list handler runs; it only reads. -/
  | list (s : Sys) (f : ReadFaults) : Step s .list s

/-- States the system can be in, started over an empty table. -/
inductive Reachable : Sys → Prop where
  | init : Reachable Sys.init
  | step {s s1 : Sys} {l : Label} (h : Reachable s) (hs : Step s l s1) : Reachable s1

/-- Ids of acknowledged tasks that the worker has not received. -/
def backlog (s : Sys) : List Int :=
  s.acked.filter (fun i => decide (i ∉ s.dequeued))

/-- What holds in every reachable state. -/
structure Inv (s : Sys) : Prop where
  ids_nodup : (s.db.map Task.ID).Nodup
  flow : (s.blocked.map Task.ID ++ (s.worker.toList.map Task.ID ++ s.updated)).Perm
    (s.db.map Task.ID)
  status : ∀ r ∈ s.db, r.Status = "PENDING" ∨ r.Status = "COMPLETED"
  untouched : ∀ r ∈ s.db, r.ID ∉ s.updated → r.Status = "PENDING"
  offered_eq : s.offered = s.db.map Task.ID
  acked_sub : ∀ i ∈ s.acked, i ∈ s.dequeued
  acking_sub : ∀ t ∈ s.acking, t.ID ∈ s.dequeued

/-- Row written by a successful creation of payload `p` at instant `now` under id `id`. -/
def newRow (p : Task) (now : Time) (id : Int) : Task :=
  { ID := id, Title := p.Title, Description := p.Description, Status := "PENDING",
    CreatedAt := now }

/-- Effect of a successful UPDATE of line 34 on one row. -/
def completeRow (id : Int) (r : Task) : Task :=
  if r.ID = id then { r with Status := "COMPLETED" } else r

/-- Finite runs of the system. -/
inductive Steps : Sys → Sys → Prop where
  | refl (s : Sys) : Steps s s
  | tail {s s1 s2 : Sys} {l : Label} (h : Steps s s1) (hs : Step s1 l s2) : Steps s s2

/-! ## Sample data -/

/-- A creation payload in which the client also sent an id, a status and a creation time. -/
def payloadA : Task :=
  { ID := 99, Title := "A", Description := "d", Status := "COMPLETED", CreatedAt := 5 }

/-- A second payload, with nothing but a title. -/
def payloadB : Task := { Task.zero with Title := "B" }

/-- A payload decoded from a body without a title member. -/
def payloadNoTitle : Task := { Task.zero with Description := "d" }

/-- Row stored for `payloadA` at instant 7 under id 1. -/
def rowA : Task := newRow payloadA 7 1

/-- Row stored for `payloadB` at instant 8 under id 2. -/
def rowB : Task := newRow payloadB 8 2

/-- State after one creation: its handler is parked on the send. -/
def stateOffered : Sys := afterCreate Sys.init (createUntilSend [] (.ok payloadA) 7 (.ok 1))

/-- State after the worker has received the first task. -/
def stateHeld : Sys :=
  { db := [rowA], blocked := [], worker := some rowA, acking := [rowA], acked := [],
    dequeued := [1], offered := [1], updated := [] }

/-- State after the first creation has been answered. -/
def stateAcked : Sys :=
  { db := [rowA], blocked := [], worker := some rowA, acking := [], acked := [1],
    dequeued := [1], offered := [1], updated := [] }

/-- State in which the worker holds the first task while the handler of a second creation,
its row already inserted, is parked on the send. -/
def stateBusy : Sys :=
  { db := [rowA, rowB], blocked := [rowB], worker := some rowA, acking := [], acked := [1],
    dequeued := [1], offered := [1, 2], updated := [] }

/-- A cursor that breaks after its first row. -/
def iterFault : ReadFaults := { query := none, iter := some (1, "disk I/O error"), scan := none }

/-! ## Basic facts -/

theorem toInt_of_inInt64 {x : Int} (h : InInt64 x) : toInt x = x := by
  unfold InInt64 at h
  unfold toInt intBits
  have h1 : ((2 : Int) ^ (64 - 1)) = 9223372036854775808 := by norm_num
  have h2 : ((2 : Int) ^ 64) = 18446744073709551616 := by norm_num
  have h3 : ((2 : Int) ^ 63) = 9223372036854775808 := by norm_num
  rw [h1, h2]
  rw [h3] at h
  omega

theorem createUntilSend_decode_error (rows : Table) (e : String) (now : Time)
    (gen : Except String Int) :
    createUntilSend rows (.error e) now gen = (rows, .done (.responded (httpError e 400))) := rfl

theorem createUntilSend_insert_error (rows : Table) (p : Task) (now : Time) (e : String) :
    createUntilSend rows (.ok p) now (.error e) = (rows, .done (.panicked nilDeref)) := rfl

theorem createUntilSend_ok (rows : Table) (p : Task) (now : Time) (id : Int) :
    createUntilSend rows (.ok p) now (.ok id)
      = (rows ++ [newRow p now id], .sending { newRow p now id with ID := toInt id }) := rfl

theorem processOne_ok (rows : Table) (t : Task) :
    processOne rows none t = rows.map (completeRow t.ID) := rfl

theorem processOne_fail (rows : Table) (e : String) (t : Task) :
    processOne rows (some e) t = rows := rfl

theorem completeRow_ID (id : Int) (r : Task) : (completeRow id r).ID = r.ID := by
  unfold completeRow; split <;> rfl

theorem map_ID_completeRow (id : Int) (rows : Table) :
    (rows.map (completeRow id)).map Task.ID = rows.map Task.ID := by
  rw [List.map_map]
  apply List.map_congr_left
  intro r _
  exact completeRow_ID id r

theorem processOne_ids (rows : Table) (fault : Option String) (t : Task) :
    (processOne rows fault t).map Task.ID = rows.map Task.ID := by
  cases fault with
  | none => rw [processOne_ok]; exact map_ID_completeRow _ _
  | some e => rw [processOne_fail]

/-- Position by position, `processOne` keeps a row or completes it. -/
theorem processOne_getElem? (rows : Table) (fault : Option String) (t : Task) (i : Nat)
    (r : Task) (h : rows[i]? = some r) :
    (processOne rows fault t)[i]? = some r ∨
      (processOne rows fault t)[i]? = some (completeRow t.ID r) := by
  cases fault with
  | none => right; rw [processOne_ok, List.getElem?_map, h]; rfl
  | some e => left; rw [processOne_fail]; exact h

/-! ## The invariant -/

theorem inv_init : Inv Sys.init where
  ids_nodup := List.nodup_nil
  flow := List.Perm.refl _
  status := by intro r hr; cases hr
  untouched := by intro r hr; cases hr
  offered_eq := rfl
  acked_sub := by intro i hi; cases hi
  acking_sub := by intro t ht; cases ht

theorem inv_create_ok {s : Sys} (h : Inv s) (p : Task) (now : Time) (id : Int)
    (hr : InInt64 id) (hf : id ∉ s.db.map Task.ID) :
    Inv (afterCreate s (createUntilSend s.db (.ok p) now (.ok id))) := by
  rw [createUntilSend_ok]
  simp only [afterCreate, toInt_of_inInt64 hr]
  constructor
  · simp only [List.map_append, List.map_cons, List.map_nil]
    rw [List.nodup_append]
    refine ⟨h.ids_nodup, List.nodup_singleton _, ?_⟩
    intro a ha hb
    rw [List.mem_singleton] at hb
    subst hb
    exact hf ha
  · simp only [List.map_append, List.map_cons, List.map_nil, List.append_assoc,
      List.singleton_append]
    exact (List.perm_middle.trans (h.flow.cons _)).trans (List.perm_append_singleton _ _).symm
  · intro r hr
    rw [List.mem_append, List.mem_singleton] at hr
    rcases hr with hr | hr
    · exact h.status r hr
    · subst hr; left; rfl
  · intro r hr hu
    rw [List.mem_append, List.mem_singleton] at hr
    rcases hr with hr | hr
    · exact h.untouched r hr hu
    · subst hr; rfl
  · simp only [List.map_append, List.map_cons, List.map_nil]
    rw [h.offered_eq]
    rfl
  · exact h.acked_sub
  · exact h.acking_sub

theorem inv_step {s s1 : Sys} {l : Label} (h : Inv s) (hs : Step s l s1) : Inv s1 := by
  cases hs with
  | create decoded now gen hgen =>
    cases decoded with
    | error e => rw [createUntilSend_decode_error]; exact h
    | ok p =>
      cases gen with
      | error e => rw [createUntilSend_insert_error]; exact h
      | ok id => exact inv_create_ok h p now id hgen.1 hgen.2
  | handoff pre post t hb hw =>
    have hflow := h.flow
    rw [hb, hw] at hflow
    simp only [List.map_append, List.map_cons, Option.toList, List.map_nil, List.nil_append,
      List.append_assoc] at hflow
    constructor
    · exact h.ids_nodup
    · simp only [List.map_append, Option.toList, List.map_cons, List.map_nil,
        List.append_assoc, List.singleton_append]
      refine List.Perm.trans ?_ hflow
      refine List.Perm.append_left _ ?_
      exact List.perm_middle
    · exact h.status
    · exact h.untouched
    · exact h.offered_eq
    · intro i hi
      exact List.mem_append_left _ (h.acked_sub i hi)
    · intro u hu
      rw [List.mem_append, List.mem_singleton] at hu
      rcases hu with hu | hu
      · exact List.mem_append_left _ (h.acking_sub u hu)
      · subst hu; exact List.mem_append_right _ (List.mem_singleton_self _)
  | ack pre post t ha =>
    constructor
    · exact h.ids_nodup
    · exact h.flow
    · exact h.status
    · exact h.untouched
    · exact h.offered_eq
    · intro i hi
      rw [List.mem_append, List.mem_singleton] at hi
      rcases hi with hi | hi
      · exact h.acked_sub i hi
      · subst hi
        apply h.acking_sub
        rw [ha]
        exact List.mem_append_right _ (List.mem_cons_self _ _)
    · intro u hu
      apply h.acking_sub
      rw [ha]
      rw [List.mem_append] at hu ⊢
      rcases hu with hu | hu
      · exact Or.inl hu
      · exact Or.inr (List.mem_cons_of_mem _ hu)
  | work t fault hw =>
    have hflow := h.flow
    rw [hw] at hflow
    simp only [Option.toList, List.map_cons, List.map_nil, List.singleton_append] at hflow
    constructor
    · show (List.map Task.ID (processOne s.db fault t)).Nodup
      rw [processOne_ids]; exact h.ids_nodup
    · show (List.map Task.ID s.blocked ++ (List.map Task.ID (Option.toList none)
          ++ (s.updated ++ [t.ID]))).Perm (List.map Task.ID (processOne s.db fault t))
      rw [processOne_ids]
      simp only [Option.toList, List.map_nil, List.nil_append]
      refine List.Perm.trans ?_ hflow
      refine List.Perm.append_left _ ?_
      exact List.perm_append_singleton _ _
    · show ∀ r ∈ processOne s.db fault t, r.Status = "PENDING" ∨ r.Status = "COMPLETED"
      intro r hr
      cases fault with
      | some e => rw [processOne_fail] at hr; exact h.status r hr
      | none =>
        rw [processOne_ok, List.mem_map] at hr
        obtain ⟨r0, hr0, rfl⟩ := hr
        unfold completeRow
        split
        · right; rfl
        · exact h.status r0 hr0
    · show ∀ r ∈ processOne s.db fault t, r.ID ∉ s.updated ++ [t.ID] → r.Status = "PENDING"
      intro r hr hu
      rw [List.mem_append, List.mem_singleton, not_or] at hu
      cases fault with
      | some e => rw [processOne_fail] at hr; exact h.untouched r hr hu.1
      | none =>
        rw [processOne_ok, List.mem_map] at hr
        obtain ⟨r0, hr0, rfl⟩ := hr
        rw [completeRow_ID] at hu
        have hne : ¬ r0.ID = t.ID := hu.2
        unfold completeRow
        rw [if_neg hne]
        exact h.untouched r0 hr0 hu.1
    · show s.offered = List.map Task.ID (processOne s.db fault t)
      rw [processOne_ids]; exact h.offered_eq
    · exact h.acked_sub
    · exact h.acking_sub
  | list f => exact h

theorem inv_of_reachable {s : Sys} (h : Reachable s) : Inv s := by
  induction h with
  | init => exact inv_init
  | step _ hs ih => exact inv_step ih hs

/-- The task the worker holds has not been the subject of an UPDATE yet. -/
theorem worker_not_updated {s : Sys} (h : Inv s) {t : Task} (hw : s.worker = some t) :
    t.ID ∉ s.updated := by
  have hflow := h.flow
  rw [hw] at hflow
  simp only [Option.toList, List.map_cons, List.map_nil, List.singleton_append] at hflow
  have hnd := (hflow.nodup_iff).mpr h.ids_nodup
  rw [List.nodup_append] at hnd
  exact (List.nodup_cons.mp hnd.2.1).1

theorem updated_nodup {s : Sys} (h : Inv s) : s.updated.Nodup := by
  have hnd := (h.flow.nodup_iff).mpr h.ids_nodup
  rw [List.nodup_append] at hnd
  have h2 := hnd.2.1
  rw [List.nodup_append] at h2
  exact h2.2.1

/-! ## Sample runs -/

theorem storeAssigns_one : StoreAssigns [] (.ok 1) :=
  ⟨by unfold InInt64; norm_num, by simp⟩

theorem reachable_stateOffered : Reachable stateOffered :=
  Reachable.step Reachable.init (Step.create Sys.init (.ok payloadA) 7 (.ok 1) storeAssigns_one)

theorem toInt_one : toInt 1 = 1 := toInt_of_inInt64 (by unfold InInt64; norm_num)

theorem toInt_two : toInt 2 = 2 := toInt_of_inInt64 (by unfold InInt64; norm_num)

theorem stateOffered_eq : stateOffered =
    { db := [rowA], blocked := [rowA], worker := none, acking := [], acked := [],
      dequeued := [], offered := [1], updated := [] } := by
  simp [stateOffered, createUntilSend_ok, afterCreate, toInt_one, Sys.init, rowA, newRow]

theorem reachable_stateHeld : Reachable stateHeld := by
  have h1 := reachable_stateOffered
  rw [stateOffered_eq] at h1
  exact Reachable.step h1 (Step.handoff _ [] [] rowA rfl rfl)

theorem reachable_stateAcked : Reachable stateAcked :=
  Reachable.step reachable_stateHeld (Step.ack stateHeld [] [] rowA rfl)

theorem reachable_stateBusy : Reachable stateBusy := by
  have h4 := Reachable.step reachable_stateAcked (Step.create stateAcked (.ok payloadB) 8 (.ok 2)
    ⟨by unfold InInt64; norm_num, by simp [stateAcked, rowA, newRow]⟩)
  have he : afterCreate stateAcked (createUntilSend stateAcked.db (.ok payloadB) 8 (.ok 2))
      = stateBusy := by
    simp [stateBusy, stateAcked, createUntilSend_ok, afterCreate, toInt_two, rowA, rowB, newRow]
  rw [he] at h4
  exact h4

/-! ## Reading the table -/

theorem scanOutcomes_none (k : Nat) (rows : Table) :
    scanOutcomes none k rows = rows.map Except.ok := by
  induction rows generalizing k with
  | nil => rfl
  | cons r rest ih => simp [scanOutcomes, ih]

theorem scanLoop_all_ok (rows : Table) (acc : GoSlice) :
    scanLoop (rows.map Except.ok) acc
      = (if rows = [] then acc else some (acc.getD [] ++ rows), none) := by
  induction rows generalizing acc with
  | nil => rfl
  | cons r rest ih =>
    simp only [List.map_cons, scanLoop, ih, goAppend]
    by_cases h : rest = []
    · simp [h]
    · simp [h]

/-- Without a fault `ListTasks` returns every row in storage order; over an empty table
the slice it returns is nil. -/
theorem listTasks_clean (rows : Table) :
    ListTasks rows .clean = (if rows = [] then none else some rows, none) := by
  simp [ListTasks, dbQuery, ReadFaults.clean, scanOutcomes_none, scanLoop_all_ok]

/-- A cursor that stops early, for whatever reason, yields the rows delivered so far
and no error. -/
theorem listTasks_iter_fault (rows : Table) (k : Nat) (e : String) :
    ListTasks rows { query := none, iter := some (k, e), scan := none }
      = (if rows.take k = [] then none else some (rows.take k), none) := by
  simp only [ListTasks, dbQuery, scanOutcomes_none, scanLoop_all_ok]
  simp

/-- A failed query is reported. -/
theorem listTasks_query_fault (rows : Table) (e : String) (f : ReadFaults)
    (h : f.query = some e) : ListTasks rows f = (none, some e) := by
  simp [ListTasks, dbQuery, h]

theorem scanLoop_scan_fault (rows : Table) (i k : Nat) (e : String) (acc : GoSlice)
    (h1 : k ≤ i) (h2 : i < k + rows.length) :
    scanLoop (scanOutcomes (some (i, e)) k rows) acc = (none, some e) := by
  induction rows generalizing k acc with
  | nil => simp at h2; omega
  | cons r rest ih =>
    by_cases hik : i = k
    · simp [scanOutcomes, hik, scanLoop]
    · simp only [scanOutcomes, hik, if_false, scanLoop]
      apply ih
      · omega
      · simp only [List.length_cons] at h2; omega

/-- A row that cannot be decoded is reported, and the rows decoded before it are dropped. -/
theorem listTasks_scan_fault (rows : Table) (i : Nat) (e : String) (h : i < rows.length) :
    ListTasks rows { query := none, iter := none, scan := some (i, e) } = (none, some e) := by
  simp only [ListTasks, dbQuery]
  exact scanLoop_scan_fault rows i 0 e none (Nat.zero_le _) (by omega)

/-! ## Claims about single calls -/

/-- C1: for every decoded payload `p` and every table on which the INSERT succeeds with
generated id `id`, `HandleCreateTask` answers 201 with an empty body, appends exactly
one row, and both that row and the task sent on the channel carry the title and the
description of `p`, status PENDING, the server time `now` and the id `id`; two payloads
that agree on title and description give the same result, whatever their id, status
and creation time. -/
theorem handleCreateTask_success (rows : Table) (p : Task) (now : Time) (id : Int)
    (hid : InInt64 id) :
    HandleCreateTask rows (.ok p) now (.ok id)
      = { db := rows ++ [{ ID := id, Title := p.Title, Description := p.Description,
                           Status := "PENDING", CreatedAt := now }],
          sent := some { ID := id, Title := p.Title, Description := p.Description,
                         Status := "PENDING", CreatedAt := now },
          served := .responded { status := 201, body := .empty } } ∧
    (HandleCreateTask rows (.ok p) now (.ok id)).db.length = rows.length + 1 ∧
    ∀ q : Task, q.Title = p.Title → q.Description = p.Description →
      HandleCreateTask rows (.ok q) now (.ok id) = HandleCreateTask rows (.ok p) now (.ok id) := by
  have key : ∀ q : Task, HandleCreateTask rows (.ok q) now (.ok id)
      = { db := rows ++ [newRow q now id], sent := some (newRow q now id),
          served := .responded { status := 201, body := .empty } } := by
    intro q
    simp only [HandleCreateTask, createUntilSend_ok, toInt_of_inInt64 hid]
    rfl
  refine ⟨key p, ?_, ?_⟩
  · rw [key p]; simp
  · intro q h1 h2
    rw [key q, key p]
    simp [newRow, h1, h2]

theorem handleCreateTask_success_witness :
    InInt64 1 ∧
    HandleCreateTask [] (.ok payloadA) 7 (.ok 1)
      = { db := [{ ID := 1, Title := "A", Description := "d", Status := "PENDING",
                   CreatedAt := 7 }],
          sent := some { ID := 1, Title := "A", Description := "d", Status := "PENDING",
                         CreatedAt := 7 },
          served := .responded { status := 201, body := .empty } } :=
  ⟨by unfold InInt64; norm_num,
   (handleCreateTask_success [] payloadA 7 1 (by unfold InInt64; norm_num)).1⟩

/-- C2: when the INSERT fails, `AddTask` does not return the error: it panics on the nil
result, on every table and for every task.  `HandleCreateTask` then ends in that panic
with the table untouched and nothing sent, and no input at all makes it answer 500. -/
theorem addTask_failed_write_panics (rows : Table) (task : Task) (now : Time) (e : String) :
    AddTask rows (.error e) task = (rows, .panic nilDeref) ∧
    HandleCreateTask rows (.ok task) now (.error e)
      = { db := rows, sent := none, served := .panicked nilDeref } ∧
    ∀ (rows1 : Table) (decoded : Except String Task) (now1 : Time) (gen : Except String Int)
      (r : Response),
      (HandleCreateTask rows1 decoded now1 gen).served = .responded r → r.status ≠ 500 := by
  refine ⟨rfl, rfl, ?_⟩
  intro rows1 decoded now1 gen r h
  cases decoded with
  | error e1 =>
    simp only [HandleCreateTask, createUntilSend_decode_error] at h
    injection h with h
    subst h
    simp [httpError]
  | ok p =>
    cases gen with
    | error e1 =>
      simp only [HandleCreateTask, createUntilSend_insert_error] at h
      cases h
    | ok id =>
      simp only [HandleCreateTask, createUntilSend_ok] at h
      injection h with h
      subst h
      simp

/-- C6: when the body does not decode, `HandleCreateTask` answers 400 with the decoder's
message, leaves the table as it was and sends nothing, whatever the rest of the input;
in the running system such a request leaves the whole state, channel side included, as
it was. -/
theorem handleCreateTask_malformed (rows : Table) (e : String) (now : Time)
    (gen : Except String Int) :
    HandleCreateTask rows (.error e) now gen
      = { db := rows, sent := none,
          served := .responded { status := 400, body := .text e } } ∧
    ∀ s : Sys, afterCreate s (createUntilSend s.db (.error e) now gen) = s := by
  refine ⟨rfl, ?_⟩
  intro s
  rfl

/-- C4: a cursor that breaks during iteration is not noticed.  Over the table
`[rowA, rowB]` with the cursor failing after its first row, `ListTasks` returns the one
row read so far and no error, and `HandleListTasks` answers 200 with that single task;
in general a cursor failing after `k` rows gives status 200 and the first `k` rows. -/
theorem listTasks_ignores_cursor_error :
    ListTasks [rowA, rowB] iterFault = (some [rowA], none) ∧
    HandleListTasks [rowA, rowB] iterFault
      = { status := 200, body := .jsonArray [encodeTask rowA] } ∧
    ∀ (rows : Table) (k : Nat) (e : String),
      HandleListTasks rows { query := none, iter := some (k, e), scan := none }
        = { status := 200,
            body := if rows.take k = [] then .jsonNull
                    else .jsonArray ((rows.take k).map encodeTask) } := by
  refine ⟨rfl, rfl, ?_⟩
  intro rows k e
  simp only [HandleListTasks, listTasks_iter_fault]
  by_cases h : rows.take k = []
  · simp [h, encodeTasks]
  · simp [h, encodeTasks]

/-- C5: for a task `t` whose id is in the table and an UPDATE that succeeds, one pass of
the worker keeps the number of rows, turns every row with id `t.ID` into the same row
with status COMPLETED, keeps every other row as it is, and a list taken afterwards
returns exactly these rows in the same order. -/
theorem processOne_frame (rows : Table) (t : Task) (hmem : t.ID ∈ rows.map Task.ID) :
    (processOne rows none t).length = rows.length ∧
    (∀ (i : Nat) (r : Task), rows[i]? = some r →
      (processOne rows none t)[i]?
        = some (if r.ID = t.ID then { r with Status := "COMPLETED" } else r)) ∧
    (∃ r ∈ processOne rows none t, r.ID = t.ID) ∧
    (∀ r ∈ processOne rows none t, r.ID = t.ID → r.Status = "COMPLETED") ∧
    ListTasks (processOne rows none t) .clean
      = (some (rows.map
          (fun r => if r.ID = t.ID then { r with Status := "COMPLETED" } else r)), none) ∧
    ProcessTasks rows [(t, none)] = processOne rows none t := by
  have hne : rows ≠ [] := by
    intro h; rw [h] at hmem; cases hmem
  refine ⟨?_, ?_, ?_, ?_, ?_, rfl⟩
  · rw [processOne_ok, List.length_map]
  · intro i r hr
    rw [processOne_ok, List.getElem?_map, hr]
    rfl
  · rw [List.mem_map] at hmem
    obtain ⟨r, hr, hid⟩ := hmem
    refine ⟨completeRow t.ID r, ?_, ?_⟩
    · rw [processOne_ok]; exact List.mem_map_of_mem _ hr
    · rw [completeRow_ID]; exact hid
  · intro r hr hid
    rw [processOne_ok, List.mem_map] at hr
    obtain ⟨r0, _, rfl⟩ := hr
    rw [completeRow_ID] at hid
    unfold completeRow
    rw [if_pos hid]
  · rw [listTasks_clean, processOne_ok]
    have h2 : List.map (completeRow t.ID) rows ≠ [] := by
      intro h; exact hne (List.map_eq_nil_iff.mp h)
    rw [if_neg h2]
    rfl

theorem processOne_frame_witness :
    (1 : Int) ∈ [rowA, rowB].map Task.ID ∧
    ListTasks (processOne [rowA, rowB] none rowA) .clean
      = (some [{ rowA with Status := "COMPLETED" }, rowB], none) :=
  ⟨by decide, (processOne_frame [rowA, rowB] rowA (by decide)).2.2.2.2.1⟩

/-- C9: when the read succeeds `HandleListTasks` answers 200; over a table with at least
one row the body is the array of the rows, one object per row in storage order, but
over the empty table the body is JSON `null`, not the empty array. -/
theorem handleListTasks_clean (rows : Table) :
    HandleListTasks rows .clean
      = { status := 200,
          body := if rows = [] then .jsonNull else .jsonArray (rows.map encodeTask) } ∧
    HandleListTasks [] .clean = { status := 200, body := .jsonNull } := by
  refine ⟨?_, rfl⟩
  simp only [HandleListTasks, listTasks_clean]
  by_cases h : rows = []
  · simp [h, encodeTasks]
  · simp [h, encodeTasks]

/-- C10, as stated, fails: a body without a title, decoded to the empty title, is answered
with 201 and a row with the empty title is stored. -/
theorem empty_title_is_stored :
    HandleCreateTask [] (.ok payloadNoTitle) 7 (.ok 1)
      = { db := [{ ID := 1, Title := "", Description := "d", Status := "PENDING",
                   CreatedAt := 7 }],
          sent := some { ID := 1, Title := "", Description := "d", Status := "PENDING",
                         CreatedAt := 7 },
          served := .responded { status := 201, body := .empty } } := by
  simp [HandleCreateTask, createUntilSend_ok, toInt_one, newRow, payloadNoTitle, Task.zero]

/-- C10, amended: the title is not checked.  For every payload whose decoded title is
empty and every table on which the INSERT succeeds, `HandleCreateTask` answers 201 and
appends one row whose title is the empty string. -/
theorem handleCreateTask_no_title_check (rows : Table) (p : Task) (now : Time) (id : Int)
    (ht : p.Title = "") :
    (HandleCreateTask rows (.ok p) now (.ok id)).served
      = .responded { status := 201, body := .empty } ∧
    (HandleCreateTask rows (.ok p) now (.ok id)).db
      = rows ++ [{ ID := id, Title := "", Description := p.Description, Status := "PENDING",
                   CreatedAt := now }] := by
  refine ⟨rfl, ?_⟩
  simp only [HandleCreateTask, createUntilSend_ok, newRow, ht]

theorem handleCreateTask_no_title_check_witness :
    payloadNoTitle.Title = "" ∧
    (HandleCreateTask [rowA] (.ok payloadNoTitle) 9 (.ok 2)).db
      = [rowA, { ID := 2, Title := "", Description := "d", Status := "PENDING",
                 CreatedAt := 9 }] :=
  ⟨rfl, (handleCreateTask_no_title_check [rowA] payloadNoTitle 9 2 rfl).2⟩

/-! ## Steps of the running system -/

theorem afterCreate_cases (s : Sys) (decoded : Except String Task) (now : Time)
    (gen : Except String Int) :
    afterCreate s (createUntilSend s.db decoded now gen) = s ∨
    ∃ (p : Task) (id : Int),
      afterCreate s (createUntilSend s.db decoded now gen)
        = { s with db := s.db ++ [newRow p now id],
                   blocked := s.blocked ++ [{ newRow p now id with ID := toInt id }],
                   offered := s.offered ++ [toInt id] } := by
  cases decoded with
  | error e => left; rfl
  | ok p =>
    cases gen with
    | error e => left; rfl
    | ok id => right; exact ⟨p, id, rfl⟩

/-- No step removes a row or changes the id stored at a position. -/
theorem step_ids {s s1 : Sys} {l : Label} (hs : Step s l s1) (i : Nat) (r : Task)
    (hr : s.db[i]? = some r) : ∃ r1, s1.db[i]? = some r1 ∧ r1.ID = r.ID := by
  cases hs with
  | create decoded now gen hgen =>
    rcases afterCreate_cases s decoded now gen with h | ⟨p, id, h⟩
    · rw [h]; exact ⟨r, hr, rfl⟩
    · rw [h]
      refine ⟨r, ?_, rfl⟩
      have hi : i < s.db.length := (List.getElem?_eq_some_iff.mp hr).1
      show (s.db ++ [newRow p now id])[i]? = some r
      rw [List.getElem?_append_left hi]; exact hr
  | handoff pre post t hb hw => exact ⟨r, hr, rfl⟩
  | ack pre post t ha => exact ⟨r, hr, rfl⟩
  | work t fault hw =>
    rcases processOne_getElem? s.db fault t i r hr with h | h
    · exact ⟨r, h, rfl⟩
    · exact ⟨_, h, completeRow_ID _ _⟩
  | list f => exact ⟨r, hr, rfl⟩

theorem steps_ids {s s2 : Sys} (hs : Steps s s2) (i : Nat) (r : Task)
    (hr : s.db[i]? = some r) : ∃ r2, s2.db[i]? = some r2 ∧ r2.ID = r.ID := by
  induction hs with
  | refl => exact ⟨r, hr, rfl⟩
  | tail _ hstep ih =>
    obtain ⟨r1, h1, hid1⟩ := ih
    obtain ⟨r2, h2, hid2⟩ := step_ids hstep i r1 h1
    exact ⟨r2, h2, hid2.trans hid1⟩

/-- In a state satisfying the invariant a step keeps each row, except that the worker
step turns the PENDING row of the task it holds into a COMPLETED one. -/
theorem step_rows {s s1 : Sys} {l : Label} (hinv : Inv s) (hs : Step s l s1) (i : Nat)
    (r : Task) (hr : s.db[i]? = some r) :
    s1.db[i]? = some r ∨
      (l = Label.work ∧ r.Status = "PENDING" ∧
        s1.db[i]? = some { r with Status := "COMPLETED" }) := by
  cases hs with
  | create decoded now gen hgen =>
    left
    rcases afterCreate_cases s decoded now gen with h | ⟨p, id, h⟩
    · rw [h]; exact hr
    · rw [h]
      have hi : i < s.db.length := (List.getElem?_eq_some_iff.mp hr).1
      show (s.db ++ [newRow p now id])[i]? = some r
      rw [List.getElem?_append_left hi]; exact hr
  | handoff pre post t hb hw => left; exact hr
  | ack pre post t ha => left; exact hr
  | work t fault hw =>
    rcases processOne_getElem? s.db fault t i r hr with h | h
    · left; exact h
    · by_cases hid : r.ID = t.ID
      · right
        refine ⟨rfl, ?_, ?_⟩
        · apply hinv.untouched r (List.getElem?_mem hr)
          rw [hid]
          exact worker_not_updated hinv hw
        · show (processOne s.db fault t)[i]? = _
          rw [h]
          unfold completeRow
          rw [if_pos hid]
      · left
        show (processOne s.db fault t)[i]? = _
        rw [h]
        unfold completeRow
        rw [if_neg hid]
  | list f => left; exact hr

theorem backlog_nil {s : Sys} (h : Inv s) : backlog s = [] := by
  unfold backlog
  rw [List.filter_eq_nil_iff]
  intro i hi
  simp only [decide_eq_true_eq, not_not]
  exact h.acked_sub i hi

theorem blocked_nodup {s : Sys} (h : Inv s) : s.blocked.Nodup := by
  have hnd := (h.flow.nodup_iff).mpr h.ids_nodup
  rw [List.nodup_append] at hnd
  exact List.Nodup.of_map _ hnd.1

theorem stateBusy_stuck (l : Label) (s1 : Sys) (hs : Step stateBusy l s1) :
    rowB ∈ s1.blocked ∧ s1.acked = stateBusy.acked := by
  cases hs with
  | create decoded now gen hgen =>
    rcases afterCreate_cases stateBusy decoded now gen with h | ⟨p, id, h⟩
    · rw [h]; exact ⟨by simp [stateBusy], rfl⟩
    · rw [h]; exact ⟨by simp [stateBusy], rfl⟩
  | handoff pre post t hb hw => simp [stateBusy] at hw
  | ack pre post t ha => simp [stateBusy] at ha
  | work t fault hw => exact ⟨by simp [stateBusy], rfl⟩
  | list f => exact ⟨by simp [stateBusy], rfl⟩

/-! ## Claims about the running system -/

/-- C3, as stated, fails: the channel has no buffer.  In the reachable state `stateBusy`
the worker holds the first task and the handler of the second creation has inserted its
row, yet after every step that handler is still parked on its send and nothing new has
been acknowledged; and it is not true that for every `n` some reachable state has `n`
acknowledged tasks not yet received by the worker. -/
theorem channel_is_not_unbounded :
    (Reachable stateBusy ∧ stateBusy.worker = some rowA ∧ rowB ∈ stateBusy.db ∧
      rowB ∈ stateBusy.blocked ∧
      ∀ (l : Label) (s1 : Sys), Step stateBusy l s1 →
        rowB ∈ s1.blocked ∧ s1.acked = stateBusy.acked) ∧
    ¬ (∀ n : Nat, ∃ s : Sys, Reachable s ∧ (backlog s).length = n) := by
  refine ⟨⟨reachable_stateBusy, rfl, by simp [stateBusy], by simp [stateBusy],
    stateBusy_stuck⟩, ?_⟩
  intro h
  obtain ⟨s, hr, hl⟩ := h 1
  rw [backlog_nil (inv_of_reachable hr)] at hl
  cases hl

/-- C3, amended: the channel is unbuffered, so a send completes only together with the
worker's receive.  In every reachable state no acknowledged task is waiting to be
received; a handler parked on its send leaves it only through a handoff step, which needs
the worker idle at its receive and makes the worker the holder of that very task; and
whenever the worker is idle every parked handler can complete its send at once. -/
theorem send_completes_only_by_handoff (s : Sys) (h : Reachable s) :
    backlog s = [] ∧
    (∀ (l : Label) (s1 : Sys), Step s l s1 → ∀ t : Task, t ∈ s.blocked → t ∉ s1.blocked →
      l = Label.handoff ∧ s.worker = none ∧ s1.worker = some t ∧ t.ID ∈ s1.dequeued) ∧
    (∀ t : Task, t ∈ s.blocked → s.worker = none →
      ∃ s1 : Sys, Step s Label.handoff s1 ∧ s1.worker = some t ∧ t ∉ s1.blocked ∧
        t ∈ s1.acking) := by
  have hinv := inv_of_reachable h
  refine ⟨backlog_nil hinv, ?_, ?_⟩
  · intro l s1 hs t ht hnot
    cases hs with
    | create decoded now gen hgen =>
      exfalso
      apply hnot
      rcases afterCreate_cases s decoded now gen with h1 | ⟨p, id, h1⟩
      · rw [h1]; exact ht
      · rw [h1]; exact List.mem_append_left _ ht
    | handoff pre post u hb hw =>
      have hu : t = u := by
        rw [hb, List.mem_append, List.mem_cons] at ht
        rcases ht with ht | ht | ht
        · exact absurd (List.mem_append_left _ ht) hnot
        · exact ht
        · exact absurd (List.mem_append_right _ ht) hnot
      subst hu
      exact ⟨rfl, hw, rfl, List.mem_append_right _ (List.mem_singleton_self _)⟩
    | ack pre post u ha => exact absurd ht hnot
    | work u fault hw => exact absurd ht hnot
    | list f => exact absurd ht hnot
  · intro t ht hw
    obtain ⟨pre, post, hb⟩ := List.append_of_mem ht
    refine ⟨_, Step.handoff s pre post t hb hw, rfl, ?_, ?_⟩
    · have hnd := blocked_nodup hinv
      rw [hb, List.nodup_middle, List.nodup_cons] at hnd
      exact hnd.1
    · exact List.mem_append_right _ (List.mem_singleton_self _)

theorem send_completes_only_by_handoff_witness :
    Reachable stateBusy ∧ backlog stateBusy = [] :=
  ⟨reachable_stateBusy, (send_completes_only_by_handoff stateBusy reachable_stateBusy).1⟩

/-- C7: in every state reachable from the empty table every row has status PENDING or
COMPLETED; a step leaves every existing row as it is, except that the worker step may
turn a PENDING row into the same row with status COMPLETED; a COMPLETED row is kept by
every step; and the worker never issues its UPDATE twice for the same id. -/
theorem status_lifecycle (s : Sys) (h : Reachable s) :
    (∀ r ∈ s.db, r.Status = "PENDING" ∨ r.Status = "COMPLETED") ∧
    (∀ (l : Label) (s1 : Sys), Step s l s1 → ∀ (i : Nat) (r : Task), s.db[i]? = some r →
      s1.db[i]? = some r ∨
        (l = Label.work ∧ r.Status = "PENDING" ∧
          s1.db[i]? = some { r with Status := "COMPLETED" })) ∧
    (∀ (l : Label) (s1 : Sys), Step s l s1 → ∀ (i : Nat) (r : Task), s.db[i]? = some r →
      r.Status = "COMPLETED" → s1.db[i]? = some r) ∧
    s.updated.Nodup ∧
    (∀ (l : Label) (s1 : Sys), Step s l s1 → s1.updated ≠ s.updated →
      l = Label.work ∧ ∃ t : Task, s.worker = some t ∧ s1.updated = s.updated ++ [t.ID] ∧
        t.ID ∉ s.updated) := by
  have hinv := inv_of_reachable h
  refine ⟨hinv.status, ?_, ?_, updated_nodup hinv, ?_⟩
  · intro l s1 hs i r hr
    exact step_rows hinv hs i r hr
  · intro l s1 hs i r hr hc
    rcases step_rows hinv hs i r hr with h1 | ⟨_, hp, _⟩
    · exact h1
    · rw [hc] at hp
      exact absurd hp (by decide)
  · intro l s1 hs hne
    cases hs with
    | create decoded now gen hgen =>
      exfalso
      apply hne
      rcases afterCreate_cases s decoded now gen with h1 | ⟨p, id, h1⟩
      · rw [h1]
      · rw [h1]
    | handoff pre post u hb hw => exact absurd rfl hne
    | ack pre post u ha => exact absurd rfl hne
    | work u fault hw => exact ⟨rfl, u, hw, rfl, worker_not_updated hinv hw⟩
    | list f => exact absurd rfl hne

theorem status_lifecycle_witness :
    Reachable stateHeld ∧
    ∀ r ∈ stateHeld.db, r.Status = "PENDING" ∨ r.Status = "COMPLETED" :=
  ⟨reachable_stateHeld, (status_lifecycle stateHeld reachable_stateHeld).1⟩

/-- C8: with the store generating ids as the spec describes it (`StoreAssigns`: the table
is keyed by identifier, so a successful INSERT returns an id that no stored row has), in
every state reachable from the empty table the stored ids are pairwise distinct; along
every further run each position of the table keeps its row id, so no id disappears or
changes (the code issues no DELETE and its UPDATE leaves the id column alone); the ids
of the tasks put on the channel are pairwise distinct and are exactly the stored ids in
order of creation; and a further creation whose INSERT succeeds enqueues the generated
id itself, unchanged by `int(insertedId)`, which is none of the ids enqueued before. -/
theorem ids_unique_and_stable (s : Sys) (h : Reachable s) :
    (s.db.map Task.ID).Nodup ∧
    (∀ s2 : Sys, Steps s s2 → ∀ (i : Nat) (r : Task), s.db[i]? = some r →
      ∃ r2 : Task, s2.db[i]? = some r2 ∧ r2.ID = r.ID) ∧
    s.offered.Nodup ∧
    s.offered = s.db.map Task.ID ∧
    (∀ (p : Task) (now : Time) (id : Int), StoreAssigns s.db (.ok id) →
      (createUntilSend s.db (.ok p) now (.ok id)).2 = .sending (newRow p now id) ∧
      id ∉ s.offered) := by
  have hinv := inv_of_reachable h
  refine ⟨hinv.ids_nodup, ?_, ?_, hinv.offered_eq, ?_⟩
  · intro s2 hs i r hr
    exact steps_ids hs i r hr
  · rw [hinv.offered_eq]; exact hinv.ids_nodup
  · intro p now id hgen
    constructor
    · rw [createUntilSend_ok, toInt_of_inInt64 hgen.1]
      rfl
    · rw [hinv.offered_eq]; exact hgen.2

theorem ids_unique_and_stable_witness :
    Reachable stateAcked ∧ (stateAcked.db.map Task.ID).Nodup :=
  ⟨reachable_stateAcked, (ids_unique_and_stable stateAcked reachable_stateAcked).1⟩

end TaskRunner
